import Mathlib

/-!
# gh-release — verification of the release-drafting workflow engine

Shallow embedding of the release-drafting logic of `main.go` (the current
revision, lines 1–407: `do`, `sortBranches`, `getCurrentRepo`, `releaseNotes`,
`editor.edit`) together with the parts of its vendored dependency
`blang/semver` (`Make`/`Parse`, `Version.String`) that the orchestrator calls.

Go string primitives (`strings.Split`, `strings.Join`, `strings.SplitN`,
`strings.TrimPrefix`, `strings.HasPrefix`, `strings.IndexRune`) are
re-implemented here over `List Char` with exactly the Go semantics for the
separators actually used (single-character separators), so that every
definition is executable and kernel-reducible.
-/

set_option maxRecDepth 20000

namespace GhRelease

/-! ## Go string primitives -/

/-- `strings.Split(s, sep)` for a one-character separator `ch`.
Go semantics: splitting the empty string yields `[""]`; a trailing
separator yields a trailing empty element. -/
def goSplitCh (ch : Char) : List Char → List (List Char)
  | [] => [[]]
  | c :: cs =>
    if c = ch then [] :: goSplitCh ch cs
    else
      match goSplitCh ch cs with
      | l :: ls => (c :: l) :: ls
      | [] => [[c]]

/-- `strings.Join(parts, sep)` for a one-character separator `ch`. -/
def goJoinCh (ch : Char) : List (List Char) → List Char
  | [] => []
  | [l] => l
  | l :: ls => l ++ ch :: goJoinCh ch ls

/-- `strings.HasPrefix(s, p)`. -/
def goHasPfx (s p : String) : Bool := p.data.isPrefixOf s.data

/-- `strings.TrimPrefix(s, p)`: drops `p` from the front of `s` when present,
otherwise returns `s` unchanged. -/
def goTrimPfx (s p : String) : String :=
  if goHasPfx s p then String.mk (s.data.drop p.data.length) else s

/-- `strings.IndexRune(s, ch)` combined with the two slicings the caller
does: returns `some (before, after)` for the first occurrence of `ch`, and
`none` when `ch` does not occur. -/
def breakAtFirst (ch : Char) : List Char → Option (List Char × List Char)
  | [] => none
  | c :: cs =>
    if c = ch then some ([], cs)
    else
      match breakAtFirst ch cs with
      | some (l, r) => some (c :: l, r)
      | none => none

/-! ## Release Message Protocol: parsing (from `editor.edit`, main.go:394-406)

The Go code reads the edited file and then:
```go
lines := strings.Split(string(data), "\n")
newLines := lines[:0]
for _, line := range lines {
    if strings.HasPrefix(strings.TrimPrefix(line, " "), "#") {
        continue
    }
    newLines = append(newLines, line)
}
return newLines[0], strings.Join(newLines[1:], "\n"), nil
```
`strings.TrimPrefix(line, " ")` removes at most ONE leading space.
`newLines[0]` panics with an index-out-of-range runtime error when every
line was dropped; we model that panic as `none`. -/

/-- `strings.HasPrefix(strings.TrimPrefix(line, " "), "#")` — the comment
test applied to each line. -/
def isCommentLine (l : List Char) : Bool :=
  match l with
  | '#' :: _ => true
  | ' ' :: '#' :: _ => true
  | _ => false

/-- The parse step of `editor.edit` (named `parseReleaseMsg` after the
function the repository's own test file `main_test.go` exercises).
`none` models the Go index-out-of-range panic at `newLines[0]`. -/
def parseReleaseMsg (data : String) : Option (String × String) :=
  let lines := goSplitCh '\n' data.data
  let newLines := lines.filter (fun l => !(isCommentLine l))
  match newLines with
  | [] => none
  | t :: rest => some (String.mk t, String.mk (goJoinCh '\n' rest))

/-! ## Release Message Protocol: rendering (`releaseNotes`, main.go:331-347)

```go
func releaseNotes(title string, commits []github.RepositoryCommit) string {
    notes := ""
    for i := len(commits) - 1; i >= 0; i-- {
        c := commits[i]
        lines := strings.Split(*c.Commit.Message, "\n")
        notes += fmt.Sprintf("#* [%v] - %v (%v)\n", *c.SHA, lines[0], *c.Commit.Author.Name)
    }
    return fmt.Sprintf(`#%v ... %v`, title, notes)
}
```
The format string is reproduced line-by-line in `headerLines` below;
`releaseNotes_literal` below checks the assembled text against the literal
template string of the source. -/

/-- A commit as consumed by the drafting engine: full SHA, (possibly
multi-line) message, author display name. -/
structure Commit where
  sha : String
  message : String
  authorName : String
deriving DecidableEq

/-- `strings.Split(*c.Commit.Message, "\n")` followed by `lines[0]`. -/
def firstLineOf (message : String) : List Char :=
  (goSplitCh '\n' message.data).headD []

/-- `fmt.Sprintf("#* [%v] - %v (%v)", *c.SHA, lines[0], author)` (without
the trailing newline, which `notesData` appends). -/
def noteLine (c : Commit) : List Char :=
  "#* [".data ++ c.sha.data ++ "] - ".data ++ firstLineOf c.message
    ++ " (".data ++ c.authorName.data ++ ")".data

/-- The `notes` accumulator of `releaseNotes`: commit lines concatenated
newest-first (the Go loop runs from `len(commits)-1` down to `0`), each
terminated by a newline. -/
def notesData (commits : List Commit) : List Char :=
  commits.reverse.foldr (fun c acc => noteLine c ++ '\n' :: acc) []

/-- The fixed lines of the template between the title line and the commit
list, exactly as in the source's format string (including the `realease`
typo). -/
def headerLines : List (List Char) :=
  [['#'],
   "# Please enter the realease title as the first line. Lines starting".data,
   "# with '#' will be ignored, and an empty title & message aborts the operation.".data,
   "# By removing starting '#' of lines below, you can put them in release body.".data,
   ['#'],
   "#**Commits**".data,
   ['#']]

/-- Joins a list of lines, terminating each with a newline, in front of a
tail. -/
def joinLinesNl (ls : List (List Char)) (tail : List Char) : List Char :=
  ls.foldr (fun l acc => l ++ '\n' :: acc) tail

/-- `releaseNotes(title, commits)`: the rendered template. The first line is
`#` followed by the title, then the fixed instruction block, then the
commit lines. -/
def releaseNotes (title : String) (commits : List Commit) : String :=
  String.mk (joinLinesNl (('#' :: title.data) :: headerLines) (notesData commits))

/-- Fidelity check: the assembled template equals the literal format string
of the source with `%v` substituted, on a sample title and commit. -/
theorem releaseNotes_literal :
    releaseNotes "v1.0.1" [⟨"abc123", "Fix bug\ndetails", "Alice"⟩]
      = "#v1.0.1\n#\n# Please enter the realease title as the first line. Lines starting\n# with '#' will be ignored, and an empty title & message aborts the operation.\n# By removing starting '#' of lines below, you can put them in release body.\n#\n#**Commits**\n#\n#* [abc123] - Fix bug (Alice)\n" := by
  decide

/-! ## Lemmas about line splitting and comment filtering -/

theorem goSplitCh_ne_nil (ch : Char) (l : List Char) : goSplitCh ch l ≠ [] := by
  induction l with
  | nil => simp [goSplitCh]
  | cons c cs ih =>
    simp only [goSplitCh]
    split
    · simp
    · cases h : goSplitCh ch cs with
      | nil => simp
      | cons a as => simp [h]

theorem goSplitCh_append_cons (ch : Char) (l rest : List Char) (h : ch ∉ l) :
    goSplitCh ch (l ++ ch :: rest) = l :: goSplitCh ch rest := by
  induction l with
  | nil => simp [goSplitCh]
  | cons c cs ih =>
    simp only [List.mem_cons, not_or] at h
    have hcc : ¬c = ch := fun e => h.1 e.symm
    simp only [List.cons_append, goSplitCh, if_neg hcc, List.append_eq]
    rw [ih h.2]

theorem goSplitCh_no_sep (ch : Char) (l : List Char) (h : ch ∉ l) :
    goSplitCh ch l = [l] := by
  induction l with
  | nil => rfl
  | cons c cs ih =>
    simp only [List.mem_cons, not_or] at h
    have hcc : ¬c = ch := fun e => h.1 e.symm
    simp [goSplitCh, if_neg hcc, ih h.2]

theorem goSplitCh_headD_not_mem (ch : Char) (l : List Char) :
    ch ∉ (goSplitCh ch l).headD [] := by
  induction l with
  | nil => simp [goSplitCh]
  | cons c cs ih =>
    simp only [goSplitCh]
    split
    · simp
    · cases h : goSplitCh ch cs with
      | nil => exact absurd h (goSplitCh_ne_nil ch cs)
      | cons a as =>
        rw [h] at ih
        simp only [List.headD_cons] at ih ⊢
        rename_i hne
        simp [List.mem_cons, ih]
        exact fun he => hne he.symm

theorem filter_comment_block (content rest : List Char)
    (h1 : '\n' ∉ content) (h2 : isCommentLine content = true) :
    (goSplitCh '\n' (content ++ '\n' :: rest)).filter (fun l => !(isCommentLine l))
      = (goSplitCh '\n' rest).filter (fun l => !(isCommentLine l)) := by
  rw [goSplitCh_append_cons '\n' content rest h1]
  simp [List.filter_cons, h2]

theorem filter_joinLinesNl (ls : List (List Char)) (tail : List Char)
    (h : ∀ l ∈ ls, '\n' ∉ l ∧ isCommentLine l = true) :
    (goSplitCh '\n' (joinLinesNl ls tail)).filter (fun l => !(isCommentLine l))
      = (goSplitCh '\n' tail).filter (fun l => !(isCommentLine l)) := by
  induction ls with
  | nil => rfl
  | cons l ls ih =>
    have hl := h l (List.mem_cons_self l ls)
    have hls : ∀ x ∈ ls, '\n' ∉ x ∧ isCommentLine x = true :=
      fun x hx => h x (List.mem_cons_of_mem l hx)
    simp only [joinLinesNl, List.foldr_cons]
    rw [filter_comment_block l _ hl.1 hl.2]
    exact ih hls

theorem noteLine_comment (c : Commit) : isCommentLine (noteLine c) = true := rfl

theorem noteLine_no_newline (c : Commit)
    (h1 : '\n' ∉ c.sha.data) (h2 : '\n' ∉ c.authorName.data) :
    '\n' ∉ noteLine c := by
  have hfl : '\n' ∉ firstLineOf c.message := goSplitCh_headD_not_mem '\n' c.message.data
  simp only [noteLine, List.mem_append, List.append_assoc]
  intro hmem
  rcases hmem with h | h | h | h | h | h | h <;>
    first
      | exact absurd h (by decide)
      | exact absurd h h1
      | exact absurd h h2
      | exact absurd h hfl

theorem filter_notesData (commits : List Commit)
    (h : ∀ c ∈ commits, '\n' ∉ c.sha.data ∧ '\n' ∉ c.authorName.data) :
    (goSplitCh '\n' (notesData commits)).filter (fun l => !(isCommentLine l))
      = [[]] := by
  have key : ∀ (cs : List Commit), (∀ c ∈ cs, '\n' ∉ c.sha.data ∧ '\n' ∉ c.authorName.data) →
      (goSplitCh '\n' (cs.foldr (fun c acc => noteLine c ++ '\n' :: acc) [])).filter
        (fun l => !(isCommentLine l)) = [[]] := by
    intro cs hcs
    induction cs with
    | nil => rfl
    | cons c cs ih =>
      have hc := hcs c (List.mem_cons_self c cs)
      simp only [List.foldr_cons]
      rw [filter_comment_block (noteLine c) _ (noteLine_no_newline c hc.1 hc.2)
            (noteLine_comment c)]
      exact ih (fun x hx => hcs x (List.mem_cons_of_mem c hx))
  refine key commits.reverse (fun c hc => h c ?_)
  exact List.mem_reverse.mp hc

/-- C3: parsing the rendered, unedited template yields `("", "")` for every
tag name and commit list (with the fields newline-free, as git tag names,
SHAs and author names are). -/
theorem parse_render_roundtrip (title : String) (commits : List Commit)
    (ht : '\n' ∉ title.data)
    (hc : ∀ c ∈ commits, '\n' ∉ c.sha.data ∧ '\n' ∉ c.authorName.data) :
    parseReleaseMsg (releaseNotes title commits) = some ("", "") := by
  have hhead : ∀ l ∈ ('#' :: title.data) :: headerLines,
      '\n' ∉ l ∧ isCommentLine l = true := by
    intro l hl
    rcases List.mem_cons.mp hl with h | h
    · subst h
      refine ⟨?_, rfl⟩
      simp only [List.mem_cons, not_or]
      exact ⟨by decide, ht⟩
    · fin_cases h <;> exact ⟨by decide, by decide⟩
  show (match (goSplitCh '\n' (releaseNotes title commits).data).filter
          (fun l => !(isCommentLine l)) with
        | [] => none
        | t :: rest => some (String.mk t, String.mk (goJoinCh '\n' rest)))
      = some ("", "")
  have hdata : (releaseNotes title commits).data
      = joinLinesNl (('#' :: title.data) :: headerLines) (notesData commits) := rfl
  rw [hdata, filter_joinLinesNl _ _ hhead, filter_notesData commits hc]
  rfl

/-- Witness for `parse_render_roundtrip` at a concrete tag and commit list. -/
theorem parse_render_roundtrip_witness :
    parseReleaseMsg (releaseNotes "v1.0.1" [⟨"abc123", "Fix bug\ndetails", "Alice"⟩])
      = some ("", "") :=
  parse_render_roundtrip "v1.0.1" [⟨"abc123", "Fix bug\ndetails", "Alice"⟩]
    (by decide) (by decide)

/-- C4 (failing input): on `"v2.0.0\n\n\n"` the code returns the body
`"\n\n"` — the blank lines are joined unchanged, with no trimming — even
though the code's own validation comment promises to remove trailing blank
lines and the spec says the body is trimmed to `""`. -/
theorem parse_blank_body_not_trimmed :
    parseReleaseMsg "v2.0.0\n\n\n" = some ("v2.0.0", "\n\n")
      ∧ ("\n\n" : String) ≠ "" := by
  exact ⟨by decide, by decide⟩

/-- C5 (counterexample): a line with two leading spaces before `#` is NOT
dropped: `strings.TrimPrefix(line, " ")` removes at most one space, so
`"  # foo"` survives into the body, contradicting the claim that any
amount of leading whitespace is stripped (the claim would give body `""`). -/
theorem parse_two_space_comment_kept :
    parseReleaseMsg "t\n  # foo" ≠ some ("t", "")
      ∧ parseReleaseMsg "t\n  # foo" = some ("t", "  # foo") := by
  exact ⟨by decide, by decide⟩

/-- C5 (amended): the comment filter drops a line when `#` is its first
character or follows exactly one leading space; with two leading spaces the
line is kept, and `parseReleaseMsg` therefore keeps it in the body. -/
theorem comment_filter_one_space (r : List Char) (h : '\n' ∉ r) :
    isCommentLine ('#' :: r) = true
      ∧ isCommentLine (' ' :: '#' :: r) = true
      ∧ isCommentLine (' ' :: ' ' :: '#' :: r) = false
      ∧ parseReleaseMsg (String.mk ('t' :: '\n' :: ' ' :: ' ' :: '#' :: r))
          = some ("t", String.mk (' ' :: ' ' :: '#' :: r)) := by
  refine ⟨rfl, rfl, rfl, ?_⟩
  have h2 : '\n' ∉ (' ' :: ' ' :: '#' :: r) := by
    simp only [List.mem_cons, not_or]
    exact ⟨by decide, by decide, by decide, h⟩
  have hsplit : goSplitCh '\n' ('t' :: '\n' :: ' ' :: ' ' :: '#' :: r)
      = ['t'] :: [(' ' :: ' ' :: '#' :: r)] := by
    show goSplitCh '\n' (['t'] ++ '\n' :: (' ' :: ' ' :: '#' :: r)) = _
    rw [goSplitCh_append_cons '\n' ['t'] _ (by decide),
        goSplitCh_no_sep '\n' _ h2]
  show (match (goSplitCh '\n' ('t' :: '\n' :: ' ' :: ' ' :: '#' :: r)).filter
          (fun l => !(isCommentLine l)) with
        | [] => none
        | t :: rest => some (String.mk t, String.mk (goJoinCh '\n' rest)))
      = some ("t", String.mk (' ' :: ' ' :: '#' :: r))
  rw [hsplit]
  rfl

/-- Witness for `comment_filter_one_space` at `r = " foo"`. -/
theorem comment_filter_one_space_witness :
    isCommentLine ('#' :: (" foo").data) = true
      ∧ isCommentLine (' ' :: '#' :: (" foo").data) = true
      ∧ isCommentLine (' ' :: ' ' :: '#' :: (" foo").data) = false
      ∧ parseReleaseMsg (String.mk ('t' :: '\n' :: ' ' :: ' ' :: '#' :: (" foo").data))
          = some ("t", String.mk (' ' :: ' ' :: '#' :: (" foo").data)) :=
  comment_filter_one_space (" foo").data (by decide)

/-- C6 (failing input): the repository's own test input "all lines
commented" (no trailing newline) leaves zero lines after filtering, and the
code indexes `newLines[0]` out of range — modelled as `none` — instead of
returning `("", "")` as the test `TestParseReleaseMsg` expects. -/
theorem parse_all_comments_panics :
    parseReleaseMsg "#v1.0.0\n#some text\n#some more text" = none := by
  decide

/-! ## Version Inferencer (`do`, main.go:128-137, over vendored `blang/semver`)

```go
lastRel := *latest.TagName
v, err := semver.Make(strings.TrimPrefix(lastRel, tagPrefix))
if err != nil {
    panic(err)
}
v.Patch++
version := v.String()
if strings.HasPrefix(lastRel, tagPrefix) {
    version = tagPrefix + version
}
```
`semver.Make` = `semver.Parse` of `blang/semver`; `v.Patch` is a `uint64`,
so the increment is modulo `2^64`, and `strconv.ParseUint(_, 10, 64)`
rejects values at or above `2^64`. -/

/-- A prerelease identifier of `blang/semver` (`PRVersion`): numeric or
alphanumeric. -/
inductive PRVersion where
  | num (n : Nat)
  | str (s : String)
deriving DecidableEq

/-- `blang/semver`'s `Version`. -/
structure SemVer where
  major : Nat
  minor : Nat
  patch : Nat
  pre : List PRVersion
  build : List String
deriving DecidableEq

/-- `blang/semver`'s `alphanum` character set (letters, digits, `-`). -/
def isAlphanumChar (c : Char) : Bool :=
  ('0' ≤ c && c ≤ '9') || ('a' ≤ c && c ≤ 'z') || ('A' ≤ c && c ≤ 'Z') || c = '-'

/-- `blang/semver`'s `hasLeadingZeroes`: length above one and a leading `0`. -/
def hasLeadingZeroes (s : String) : Bool :=
  decide (1 < s.data.length) && (match s.data with | '0' :: _ => true | _ => false)

/-- `strconv.ParseUint(s, 10, 64)`: fails on the empty string, a non-digit,
or a value at or above `2^64`. -/
def parseUintDec (s : String) : Option Nat :=
  if s.data.isEmpty then none
  else if !(s.data.all Char.isDigit) then none
  else
    let n := s.data.foldl (fun a c => a * 10 + (c.toNat - 48)) 0
    if n < 18446744073709551616 then some n else none

/-- One numeric component of `Parse`: the `containsOnly(numbers)` check, the
leading-zero check, then `ParseUint`. -/
def parseVersionNum (s : String) : Option Nat :=
  if !(s.data.all Char.isDigit) then none
  else if hasLeadingZeroes s then none
  else parseUintDec s

/-- `blang/semver`'s `NewPRVersion`. -/
def newPRVersion (s : String) : Option PRVersion :=
  if s.data.isEmpty then none
  else if s.data.all Char.isDigit then
    if hasLeadingZeroes s then none
    else (parseUintDec s).map PRVersion.num
  else if s.data.all isAlphanumChar then some (PRVersion.str s)
  else none

/-- The prerelease loop of `Parse`: every dot-separated part must be a valid
`PRVersion`. -/
def parsePreList (l : List String) : Option (List PRVersion) :=
  l.foldr
    (fun s acc =>
      match newPRVersion s, acc with
      | some p, some ps => some (p :: ps)
      | _, _ => none)
    (some [])

/-- The build-metadata loop of `Parse`: every dot-separated part must be
non-empty and alphanumeric. -/
def validBuildStr (s : String) : Bool := !s.data.isEmpty && s.data.all isAlphanumChar

/-- `strings.SplitN(s, ".", 3)` together with `Parse`'s `len(parts) != 3`
check: `none` unless the string has at least two dots, in which case the
third part carries the rest verbatim. -/
def splitParts (s : String) : Option (String × String × String) :=
  match goSplitCh '.' s.data with
  | a :: b :: c :: rest => some (String.mk a, String.mk b, String.mk (goJoinCh '.' (c :: rest)))
  | _ => none

/-- `semver.Make` (= `semver.Parse`) of `blang/semver`: `none` models the
returned error. Build metadata is stripped at the first `+`, then the
prerelease at the first `-`, then the patch number is parsed, then the
prerelease and build parts are validated. -/
def semverMake (s : String) : Option SemVer :=
  if s.data.isEmpty then none
  else
    match splitParts s with
    | none => none
    | some (majS, minS, restS) =>
      match parseVersionNum majS, parseVersionNum minS with
      | some major, some minor =>
        let pb :=
          match breakAtFirst '+' restS.data with
          | some (l, r) => (l, (goSplitCh '.' r).map String.mk)
          | none => (restS.data, [])
        let pp :=
          match breakAtFirst '-' pb.1 with
          | some (l, r) => (l, (goSplitCh '.' r).map String.mk)
          | none => (pb.1, [])
        match parseVersionNum (String.mk pp.1) with
        | none => none
        | some patch =>
          match parsePreList pp.2 with
          | none => none
          | some pre =>
            if pb.2.all validBuildStr then
              some ⟨major, minor, patch, pre, pb.2⟩
            else none
      | _, _ => none

/-- `PRVersion.String` of `blang/semver`. -/
def prString : PRVersion → String
  | PRVersion.num n => toString n
  | PRVersion.str s => s

/-- `Version.String` of `blang/semver`: `major.minor.patch`, then
`-pre1.pre2...` when a prerelease is present, then `+b1.b2...` when build
metadata is present. -/
def semverString (v : SemVer) : String :=
  toString v.major ++ "." ++ toString v.minor ++ "." ++ toString v.patch
    ++ (if v.pre.isEmpty then ""
        else "-" ++ String.mk (goJoinCh '.' (v.pre.map (fun p => (prString p).data))))
    ++ (if v.build.isEmpty then ""
        else "+" ++ String.mk (goJoinCh '.' (v.build.map String.data)))

/-- The version-inference block of `do` (main.go:128-137): strip an
optional leading `v`, parse as semver (`none` models the `panic`),
increment the patch (a `uint64`), render, and re-apply the `v` prefix when
the input carried it. -/
def nextVersion (lastRel : String) : Option String :=
  (semverMake (goTrimPfx lastRel "v")).map fun v =>
    let s := semverString { v with patch := (v.patch + 1) % 18446744073709551616 }
    if goHasPfx lastRel "v" then "v" ++ s else s

/-- C7 (counterexample): the code does NOT drop prerelease metadata — only
`v.Patch` is changed and `Version.String()` re-renders the prerelease, so
`"v1.2.3-rc.1"` suggests `"v1.2.4-rc.1"`, not `"v1.2.4"`. -/
theorem nextVersion_keeps_prerelease :
    nextVersion "v1.2.3-rc.1" = some "v1.2.4-rc.1"
      ∧ nextVersion "v1.2.3-rc.1" ≠ some "v1.2.4" := by
  exact ⟨by decide, by decide⟩

/-- C7 (amended): on any tag whose remainder after stripping the optional
`v` prefix parses as a semantic version, the suggestion increments exactly
the patch component, PRESERVES prerelease/build metadata, and re-applies
the prefix if and only if the input had it; a tag that does not parse
yields no suggestion (the code panics). -/
theorem nextVersion_spec (tag : String) (v : SemVer)
    (h : semverMake (goTrimPfx tag "v") = some v) :
    nextVersion tag
      = some ((if goHasPfx tag "v" then "v" else "")
          ++ semverString ⟨v.major, v.minor, (v.patch + 1) % 18446744073709551616,
                v.pre, v.build⟩) := by
  simp only [nextVersion, h, Option.map_some]
  split <;> rfl

/-- Witness for `nextVersion_spec`: the spec's own examples
`"v1.2.3" → "v1.2.4"` and `"2.0.9" → "2.0.10"`. -/
theorem nextVersion_spec_witness :
    nextVersion "v1.2.3"
        = some ((if goHasPfx "v1.2.3" "v" then "v" else "")
            ++ semverString ⟨1, 2, (3 + 1) % 18446744073709551616, [], []⟩)
      ∧ nextVersion "v1.2.3" = some "v1.2.4"
      ∧ nextVersion "2.0.9" = some "2.0.10"
      ∧ nextVersion "not-semver" = none :=
  ⟨nextVersion_spec "v1.2.3" ⟨1, 2, 3, [], []⟩ (by decide),
    by decide, by decide, by decide⟩

/-! ## Repository detection (`getCurrentRepo`, main.go:268-282)

```go
if m := reRepo.FindStringSubmatch(string(out)); m != nil {
    owner, repo = m[1], m[2]
}
```
with `reRepo = regexp.MustCompile(`+"`"+`([a-z-]+)/([a-z-]+)`+"`"+`)`.
`FindStringSubmatch` is leftmost-first. At a fixed start position the
greedy `[a-z-]+` must be maximal (a shorter run is followed by another
run character, never by `/`), so the match procedure below — try the
maximal run at each successive start — implements the regex exactly. -/

/-- A character of the `[a-z-]` class. -/
def isRepoChar (c : Char) : Bool := ('a' ≤ c && c ≤ 'z') || c = '-'

/-- Attempts `([a-z-]+)/([a-z-]+)` anchored at the head of `l`. -/
def matchRepoAt (l : List Char) : Option (List Char × List Char) :=
  let r1 := l.takeWhile isRepoChar
  if r1.isEmpty then none
  else
    match l.drop r1.length with
    | '/' :: rest =>
      let r2 := rest.takeWhile isRepoChar
      if r2.isEmpty then none else some (r1, r2)
    | _ => none

/-- Leftmost match of `([a-z-]+)/([a-z-]+)` in `l`. -/
def findRepoMatch : List Char → Option (List Char × List Char)
  | [] => none
  | c :: cs =>
    match matchRepoAt (c :: cs) with
    | some m => some m
    | none => findRepoMatch cs

/-- The owner/repo extraction of `getCurrentRepo`: the two submatches, or
empty strings when the remote URL has no match. -/
def parseOwnerRepo (url : String) : String × String :=
  match findRepoMatch url.data with
  | some (o, r) => (String.mk o, String.mk r)
  | none => ("", "")

/-! ## Branch Ranker (`sortBranches`, main.go:210-223)

```go
//sort branches by branch name length, keeping head at the top
func sortBranches(branches []*github.Branch, head string) {
    sort.Slice(branches, func(i, j int) bool {
        li := len(*branches[i].Name)
        lj := len(*branches[j].Name)
        if *branches[i].Name == head {
            li = 0
        }
        if *branches[j].Name == head {
            lj = 0
        }
        return li < lj
    })
}
```
The comparator is repository code and is translated as `branchKey` below.
`sort.Slice` is the Go standard library; its documented contract is that
the slice is reordered into a permutation that is sorted by the
comparator, and that the sort "is not guaranteed to be stable".
`sortBranchesRel` models `sortBranches` at exactly that contract: the
relation between the input slice and the possible reordered slices. -/

/-- The comparator key: `0` for the branch named like the current head,
otherwise the byte length of the branch name (names here are ASCII, where
`String.length` agrees with Go's `len`). -/
def branchKey (head b : String) : Nat := if b = head then 0 else b.length

/-- Adjacent-pairs sortedness by `branchKey` (what a comparison sort
guarantees: never `less(next, prev)`). -/
def sortedByKey (head : String) : List String → Bool
  | [] => true
  | [_] => true
  | a :: b :: t => decide (branchKey head a ≤ branchKey head b) && sortedByKey head (b :: t)

/-- `sortBranches branches head` at the `sort.Slice` contract: `output` is
a possible result iff it is a permutation of the input that is sorted by
the comparator. Stability is NOT part of the contract. -/
def sortBranchesRel (head : String) (input output : List String) : Prop :=
  output.Perm input ∧ sortedByKey head output = true

/-- Modelled from the spec: the claimed ranking — a STABLE sort by
`branchKey` (current branch key `0`, others keyed by name length; ties keep
input order). Implemented as left-to-right insertion sort, where a new
element passes an existing one only when its key is strictly smaller —
the standard stable sort. -/
def stableInsert (head : String) (x : String) : List String → List String
  | [] => [x]
  | y :: ys =>
    if branchKey head x < branchKey head y then x :: y :: ys
    else y :: stableInsert head x ys

/-- Modelled from the spec: the full stable ranking of the claim. -/
def stableRank (head : String) (input : List String) : List String :=
  input.foldl (fun acc b => stableInsert head b acc) []

/-- C8 (counterexample): with seven branches (none the current head) the
`sort.Slice` contract admits the output produced by Go's actual
small-slice path (a gap-6 shell pass followed by insertion sort), in which
`"g"` overtakes the equal-length names `"a"`..`"f"`; the stable ranking
the claim demands keeps `"g"` after them. So branch ranking is not the
claimed stable sort. -/
theorem sortBranches_not_stable :
    sortBranchesRel "main" ["bb", "a", "c", "d", "e", "f", "g"]
        ["g", "a", "c", "d", "e", "f", "bb"]
      ∧ ["g", "a", "c", "d", "e", "f", "bb"]
          ≠ stableRank "main" ["bb", "a", "c", "d", "e", "f", "g"] := by
  refine ⟨⟨by decide, by decide⟩, by decide⟩

theorem sortedByKey_pairwise (head : String) (l : List String)
    (h : sortedByKey head l = true) :
    l.Pairwise (fun a b => branchKey head a ≤ branchKey head b) := by
  induction l with
  | nil => exact List.Pairwise.nil
  | cons a t ih =>
    cases t with
    | nil => simp
    | cons b t' =>
      simp only [sortedByKey, Bool.and_eq_true, decide_eq_true_eq] at h
      have hrest := ih h.2
      refine List.pairwise_cons.mpr ⟨?_, hrest⟩
      intro x hx
      rcases List.mem_cons.mp hx with rfl | hx'
      · exact h.1
      · have hb := (List.pairwise_cons.mp hrest).1 x hx'
        exact le_trans h.1 hb

/-- C8 (amended): any output `sort.Slice` may produce is a permutation of
the input with nondecreasing keys, and — provided every non-current branch
has a non-empty name and the current branch is listed — the current branch
always ranks first and shorter names rank earlier among the rest; the
relative order of equal-length names, however, is not guaranteed. -/
theorem sortBranches_ranking (head : String) (input output : List String)
    (hrel : sortBranchesRel head input output)
    (hmem : head ∈ input)
    (hne : ∀ b ∈ input, b = head ∨ 0 < b.length) :
    output.head? = some head
      ∧ output.Pairwise (fun a b => branchKey head a ≤ branchKey head b)
      ∧ output.Perm input := by
  obtain ⟨hperm, hsort⟩ := hrel
  have hpw := sortedByKey_pairwise head output hsort
  refine ⟨?_, hpw, hperm⟩
  have hmem' : head ∈ output := (hperm.mem_iff).mpr hmem
  cases houtput : output with
  | nil => rw [houtput] at hmem'; exact absurd hmem' (List.not_mem_nil head)
  | cons a t =>
    rw [houtput] at hmem' hpw
    by_cases hah : a = head
    · rw [hah]
      rfl
    · rcases List.mem_cons.mp hmem' with h | h
      · exact absurd h.symm hah
      · exfalso
        have hle : branchKey head a ≤ branchKey head head :=
          (List.pairwise_cons.mp hpw).1 head h
        have hkh : branchKey head head = 0 := by simp [branchKey]
        have hain : a ∈ input := hperm.mem_iff.mp (by rw [houtput]; exact List.mem_cons_self a t)
        rcases hne a hain with h' | h'
        · exact hah h'
        · have : branchKey head a = a.length := by simp [branchKey, hah]
          omega

/-- Witness for `sortBranches_ranking` at the spec's own example:
current = `"main"`, input `["release", "main", "x"]`, output
`["main", "x", "release"]`. -/
theorem sortBranches_ranking_witness :
    ["main", "x", "release"].head? = some "main"
      ∧ ["main", "x", "release"].Pairwise
          (fun a b => branchKey "main" a ≤ branchKey "main" b)
      ∧ ["main", "x", "release"].Perm ["release", "main", "x"] :=
  sortBranches_ranking "main" ["release", "main", "x"] ["main", "x", "release"]
    ⟨by decide, by decide⟩ (by decide) (by decide)

/-! ## Release Drafting Orchestrator (`do`, main.go:104-182)

The orchestrator sequences: token lookup → repo detection → concurrent
latest-release/branch fetch → branch sort → target selection → version
inference → commit comparison → already-released guard → tag prompt →
editor round trip → emptiness guard → release creation.

External collaborators (git commands, the GitHub API, the prompts, the
editor) are modelled by an environment `Env` recording what each one
returns on a run in which every external call itself succeeds; the
control flow, guards and data plumbing of `do` are translated verbatim.
`sortBranches` permutes the branch slice in place before the selection
prompt; since the selection is an arbitrary environment-chosen index, the
model lets `select` index the branch list as given (the claims settled
with this model quantify over all branch lists, so the missing
permutation does not change what is reachable). -/

/-- Collaborator responses for one run of `do`. -/
structure Env where
  /-- Output of `git ls-remote --get-url origin`. -/
  remoteURL : String
  /-- `TagName` of the latest release; `none` models a `nil` release. -/
  latest : Option String
  /-- Branch names returned by `listBranches`. -/
  branches : List String
  /-- The user's selection at the target prompt; `none` models
  interrupt/EOF (a clean cancel). -/
  select : Option Nat
  /-- `Status` of the `compareCommits` response. -/
  compareStatus : String
  /-- `Commits` of the `compareCommits` response. -/
  compareCommits : List Commit
  /-- The user's entry at the tag prompt; `none` models interrupt/EOF. -/
  tagInput : Option String
  /-- Contents of the scratch file after the editor exits. -/
  edited : String
deriving DecidableEq

/-- Outcome of one run of `do`. -/
inductive RunResult where
  /-- `do` returned a non-nil error. -/
  | errored (msg : String)
  /-- `do` returned nil after printing a notice (clean abort / cancel;
  empty `msg` for the silent cancel paths). -/
  | done (msg : String)
  /-- `createRelease` was invoked on `Client{owner, repo}` with
  `(title, tag, target, body)` and the run reported the new release. -/
  | submitted (owner repo title tag target body : String)
  /-- A Go runtime panic. -/
  | panicked (msg : String)
deriving DecidableEq

/-- The body of `do` (main.go:104-182) under an environment in which every
external call succeeds. `none`-returning steps and out-of-range slice
indexing map to the code's clean returns and panics as annotated. -/
def doRun (env : Env) : RunResult :=
  match env.latest with
  | none => RunResult.errored "no previous release"
  | some lastRel =>
    match env.select with
    | none => RunResult.done ""
    | some i =>
      match env.branches[i]? with
      | none => RunResult.panicked "index out of range"
      | some targetName =>
        match nextVersion lastRel with
        | none => RunResult.panicked "semver parse error"
        | some _version =>
          if env.compareStatus = "behind" then
            RunResult.done (targetName ++ " is already released")
          else
            match env.tagInput with
            | none => RunResult.done ""
            | some tagName =>
              match parseReleaseMsg env.edited with
              | none => RunResult.panicked "index out of range"
              | some (title, body) =>
                if title = "" ∨ body = "" then
                  RunResult.done "aborting due to empty release title and message"
                else
                  match env.compareCommits.getLast? with
                  | none => RunResult.panicked "index out of range"
                  | some c =>
                    RunResult.submitted (parseOwnerRepo env.remoteURL).1
                      (parseOwnerRepo env.remoteURL).2 title tagName c.sha body

/-- Inversion helper: everything a submitted run pins down — the client's
owner/repo come from the remote-URL match, title and body passed the
literal-emptiness guard, and the target is the SHA of the last comparison
commit. -/
theorem doRun_submitted_inv (env : Env) (o r t tag tgt b : String)
    (h : doRun env = RunResult.submitted o r t tag tgt b) :
    o = (parseOwnerRepo env.remoteURL).1 ∧ r = (parseOwnerRepo env.remoteURL).2
      ∧ t ≠ "" ∧ b ≠ ""
      ∧ ∃ c, env.compareCommits.getLast? = some c ∧ tgt = c.sha := by
  unfold doRun at h
  repeat' split at h
  any_goals exact RunResult.noConfusion h
  rename_i hguard x c hlast
  simp only [RunResult.submitted.injEq] at h
  obtain ⟨ho, hr, ht, htag, htgt, hb⟩ := h
  refine ⟨ho.symm, hr.symm, ?_, ?_, c, hlast, htgt.symm⟩
  · rw [← ht]
    exact fun he => hguard (Or.inl he)
  · rw [← hb]
    exact fun he => hguard (Or.inr he)

/-- C1 (failing input): an edited message whose body is only blank lines —
`"v1.0.1\n\n\n"` — parses to the non-empty body `"\n\n"`, passes the
`title == "" || len(body) == 0` guard, and IS submitted: the run does not
abort, although the body consists of blank lines only. -/
theorem do_submits_blank_body :
    doRun { remoteURL := "git@github.com:hassansin/gh-release.git",
            latest := some "v1.0.0",
            branches := ["main"],
            select := some 0,
            compareStatus := "ahead",
            compareCommits := [⟨"sha1", "m1", "a"⟩, ⟨"sha2", "m2", "b"⟩],
            tagInput := some "v1.0.1",
            edited := "v1.0.1\n\n\n" }
        = RunResult.submitted "hassansin" "gh-release" "v1.0.1" "v1.0.1" "sha2" "\n\n"
      ∧ ("\n\n").data.all (fun c => c = '\n') = true := by
  exact ⟨by decide, by decide⟩

/-- C1 (amended): the guard enforces LITERAL emptiness — whenever a run
submits a release, its title and body are non-empty strings (a body of
blank lines counts as non-empty and is submitted unchanged). -/
theorem do_submitted_nonempty (env : Env) (o r t tag tgt b : String)
    (h : doRun env = RunResult.submitted o r t tag tgt b) :
    t ≠ "" ∧ b ≠ "" := by
  obtain ⟨-, -, ht, hb, -⟩ := doRun_submitted_inv env o r t tag tgt b h
  exact ⟨ht, hb⟩

/-- Witness for `do_submitted_nonempty` at a run that submits. -/
theorem do_submitted_nonempty_witness :
    ("v1.0.1" : String) ≠ "" ∧ ("notes" : String) ≠ "" :=
  do_submitted_nonempty
    { remoteURL := "git@github.com:hassansin/gh-release.git",
      latest := some "v1.0.0",
      branches := ["main"],
      select := some 0,
      compareStatus := "ahead",
      compareCommits := [⟨"sha1", "m1", "a"⟩, ⟨"sha2", "m2", "b"⟩],
      tagInput := some "v1.0.1",
      edited := "v1.0.1\nnotes" }
    "hassansin" "gh-release" "v1.0.1" "v1.0.1" "sha2" "notes" (by decide)

/-- C2 (counterexample): with comparison status `"identical"` (head and
base are the same commit) and an empty commit set, the orchestrator does
NOT refuse with a notice naming the target branch: it proceeds through the
tag prompt and the editor and then panics indexing the empty commit list —
an error, where the claim demands a clean "nothing new" refusal. -/
theorem do_identical_not_refused :
    doRun { remoteURL := "git@github.com:hassansin/gh-release.git",
            latest := some "v1.0.0",
            branches := ["main"],
            select := some 0,
            compareStatus := "identical",
            compareCommits := [],
            tagInput := some "v1.0.1",
            edited := "v1.0.1\nFixes" }
        = RunResult.panicked "index out of range"
      ∧ RunResult.panicked "index out of range"
          ≠ RunResult.done ("main" ++ " is already released") := by
  exact ⟨by decide, by decide⟩

/-- C2 (amended): the already-released refusal naming the target branch is
issued exactly when the comparison status is the string `"behind"`; the
statuses `"identical"` and `"diverged"` are not guarded. -/
theorem do_behind_refuses (env : Env) (lastRel targetName : String) (i : Nat) (ver : String)
    (h1 : env.latest = some lastRel)
    (h2 : env.select = some i)
    (h3 : env.branches[i]? = some targetName)
    (h4 : nextVersion lastRel = some ver)
    (h5 : env.compareStatus = "behind") :
    doRun env = RunResult.done (targetName ++ " is already released") := by
  simp [doRun, h1, h2, h3, h4, h5]

/-- Witness for `do_behind_refuses`. -/
theorem do_behind_refuses_witness :
    doRun { remoteURL := "git@github.com:hassansin/gh-release.git",
            latest := some "v1.0.0",
            branches := ["main"],
            select := some 0,
            compareStatus := "behind",
            compareCommits := [],
            tagInput := some "v1.0.1",
            edited := "v1.0.1\nFixes" }
        = RunResult.done ("main" ++ " is already released") :=
  do_behind_refuses _ "v1.0.0" "main" 0 "v1.0.1" rfl rfl rfl (by decide) rfl

/-- C9 (counterexample): a remote URL with no `([a-z-]+)/([a-z-]+)` match
yields empty owner and repo, and the run is NOT failed before the
workflow: it performs the entire workflow and calls create-release on a
client configured with empty owner and repo. -/
theorem do_empty_owner_repo_proceeds :
    parseOwnerRepo "https://EXAMPLE" = ("", "")
      ∧ doRun { remoteURL := "https://EXAMPLE",
                latest := some "v1.0.0",
                branches := ["main"],
                select := some 0,
                compareStatus := "ahead",
                compareCommits := [⟨"sha1", "m1", "a"⟩, ⟨"sha2", "m2", "b"⟩],
                tagInput := some "v1.0.1",
                edited := "v1.0.1\nnotes" }
          = RunResult.submitted "" "" "v1.0.1" "v1.0.1" "sha2" "notes" := by
  exact ⟨by decide, by decide⟩

/-- C9 (amended): a non-matching remote URL yields empty owner/repo, and
the orchestrator does not treat that as fatal: the run proceeds and, when
it reaches submission, calls create-release with empty owner and repo. -/
theorem do_empty_owner_repo_spec (env : Env) (o r t tag tgt b : String)
    (hurl : findRepoMatch env.remoteURL.data = none)
    (h : doRun env = RunResult.submitted o r t tag tgt b) :
    o = "" ∧ r = "" := by
  obtain ⟨ho, hr, -⟩ := doRun_submitted_inv env o r t tag tgt b h
  rw [ho, hr]
  simp [parseOwnerRepo, hurl]

/-- Witness for `do_empty_owner_repo_spec`. -/
theorem do_empty_owner_repo_spec_witness :
    ("" : String) = "" ∧ ("" : String) = "" :=
  do_empty_owner_repo_spec
    { remoteURL := "https://EXAMPLE",
      latest := some "v1.0.0",
      branches := ["main"],
      select := some 0,
      compareStatus := "ahead",
      compareCommits := [⟨"sha1", "m1", "a"⟩, ⟨"sha2", "m2", "b"⟩],
      tagInput := some "v1.0.1",
      edited := "v1.0.1\nnotes" }
    "" "" "v1.0.1" "v1.0.1" "sha2" "notes" (by decide) (by decide)

/-- C10: whenever the run passes the already-released guard, the tag
prompt, and the emptiness guard, the submission step uses
`compare.Commits[len(compare.Commits)-1].SHA` — the SHA of the LAST
commit of the comparison — with no emptiness re-check: with a non-empty
commit list the release targets that last SHA, and with an empty list the
indexing panics. -/
theorem do_target_is_last_commit (env : Env) (lastRel targetName : String) (i : Nat)
    (ver tagName title body : String)
    (h1 : env.latest = some lastRel)
    (h2 : env.select = some i)
    (h3 : env.branches[i]? = some targetName)
    (h4 : nextVersion lastRel = some ver)
    (h5 : env.compareStatus ≠ "behind")
    (h6 : env.tagInput = some tagName)
    (h7 : parseReleaseMsg env.edited = some (title, body))
    (h8 : ¬(title = "" ∨ body = "")) :
    doRun env
      = match env.compareCommits.getLast? with
        | some c =>
          RunResult.submitted (parseOwnerRepo env.remoteURL).1
            (parseOwnerRepo env.remoteURL).2 title tagName c.sha body
        | none => RunResult.panicked "index out of range" := by
  simp only [doRun, h1, h2, h3, h4, eq_false h5, if_false, h6, h7, eq_false h8]
  cases hc : env.compareCommits.getLast? <;> simp [hc]

/-- Witness for `do_target_is_last_commit`: a two-commit comparison, whose
newest (last) commit `sha2` becomes the release target. -/
theorem do_target_is_last_commit_witness :
    doRun { remoteURL := "git@github.com:hassansin/gh-release.git",
            latest := some "v1.0.0",
            branches := ["main"],
            select := some 0,
            compareStatus := "ahead",
            compareCommits := [⟨"sha1", "m1", "a"⟩, ⟨"sha2", "m2", "b"⟩],
            tagInput := some "v1.0.1",
            edited := "v1.0.1\nnotes" }
      = match ([⟨"sha1", "m1", "a"⟩, ⟨"sha2", "m2", "b"⟩] : List Commit).getLast? with
        | some c =>
          RunResult.submitted
            (parseOwnerRepo "git@github.com:hassansin/gh-release.git").1
            (parseOwnerRepo "git@github.com:hassansin/gh-release.git").2
            "v1.0.1" "v1.0.1" c.sha "notes"
        | none => RunResult.panicked "index out of range" :=
  do_target_is_last_commit _ "v1.0.0" "main" 0 "v1.0.1" "v1.0.1" "v1.0.1" "notes"
    rfl rfl rfl (by decide) (by decide) rfl (by decide) (by decide)

end GhRelease
